import Mathlib

/-!
# fMBT: the model wrapper (`mwrapper.cc`) and the random-generator store (`random.cc`)

A shallow embedding of `Mwrapper::getIActions`, `Mwrapper::execute`, `r_store`,
`new_random` and `Random::default_random`, with the properties of the design
document stated and settled against the embedded code.
-/

namespace fMBT

namespace Mwrapper

/-! ## `mwrapper.cc` -/

/-- The C library `memmove(&arr[dst], &arr[src], n * sizeof(int))` on an `int` array:
the `n` entries starting at `src` are copied over the `n` entries starting at `dst`
(overlap-safe), every other entry keeps its value. -/
def memmove (arr : List Int) (dst src n : Nat) : List Int :=
  arr.take dst ++ ((arr.drop src).take n ++ arr.drop (dst + n))

/-- The `for(int i=0;i<a;i++)` loop of `Mwrapper::getIActions`, with `k = a - i`
iterations left to run: on an output action at index `i`, `ret` is decremented and
the entries `i+1 .. a-1` are moved one place down; `i` is incremented either way. -/
def getIActions_loop (is_output : Int → Bool) (a : Nat) :
    Nat → Nat → Int → List Int → Int × List Int
  | 0, _, ret, arr => (ret, arr)
  | k + 1, i, ret, arr =>
    if is_output (arr.getD i 0) then
      getIActions_loop is_output a k (i + 1) (ret - 1) (memmove arr i (i + 1) (a - i - 1))
    else
      getIActions_loop is_output a k (i + 1) ret arr

/-- The function `Mwrapper::getIActions`: `L` is the array `model->getActions` hands
back (its length is the returned count `a`); the result is the returned `ret`
together with the array as the loop leaves it. -/
def getIActions (is_output : Int → Bool) (L : List Int) : Int × List Int :=
  getIActions_loop is_output L.length L.length 0 (L.length : Int) L

/-- The interface of the wrapped base model (`aal`) that `Mwrapper::execute` uses:
`model_execute` returns an `int` (non-zero means the action was executed) and may
change the base model's state. -/
structure aal (M : Type) where
  model_execute : M → Int → Int × M

/-- The fields of an `Mwrapper` object: the owned base model and the mirrored
`status` and `errormsg`. -/
structure State (M : Type) where
  model : M
  status : Bool
  errormsg : String

/-- The function `Mwrapper::execute`. -/
def execute {M : Type} (B : aal M) (w : State M) (action : Int) : Int × State M :=
  let r := B.model_execute w.model action
  if r.1 ≠ 0 then (action, { w with model := r.2 })
  else (0, { w with model := r.2 })

/-- The actions of `L` that are not classified as output, in their original order. -/
def inputsOf (is_output : Int → Bool) (L : List Int) : List Int :=
  L.filter (fun x => !is_output x)

/-- No two neighbours of the list are both output actions, and its last action
(when there is one) is not an output. -/
def Sparse (is_output : Int → Bool) : List Int → Prop
  | [] => True
  | [x] => is_output x = false
  | x :: y :: rest => (is_output x = false ∨ is_output y = false) ∧ Sparse is_output (y :: rest)

end Mwrapper

/-! ## `random.cc` -/

/-- Modelled from the spec: the class `Random` of `random.hh`, which is not among the
sources. An instance carries a reference count (the number of holders, so `0` when
it is constructed) and the `single` flag fixed at construction; `deleted` records
that the instance has been destroyed (`delete this`), after which every call on it is
a use-after-free. -/
structure Random where
  refcount : Int
  single : Bool
  deleted : Bool
deriving DecidableEq, Repr

/-- Modelled from the spec: `Random::ref()` of `random.hh` adds one to the reference
count. -/
def Random.ref (x : Random) : Random :=
  { x with refcount := x.refcount + 1 }

/-- Modelled from the spec: `Random::unref()` of `random.hh` subtracts one from the
reference count and destroys the instance when the count reaches zero. -/
def Random.unref (x : Random) : Random :=
  if x.refcount - 1 = 0 then { x with refcount := x.refcount - 1, deleted := true }
  else { x with refcount := x.refcount - 1 }

/-- The class `r_store`: its only member is the pointer `Random* r` (`none` is `NULL`,
`some p` is the address `p`). -/
structure r_store where
  r : Option Nat
deriving DecidableEq, Repr

/-- The collaborators of `new_random` that live outside `random.cc`: the two string
parsers `param_cut` and `split`, each yielding `(name, option)`, and the registered
constructors behind `RandomFactory::create`: `registry name option` is `none` when no
constructor is registered for `name` or the constructor fails on `option`, and
`some single` when it yields an instance with that `single` flag. -/
structure Env where
  param_cut : String → String × String
  split : String → String × String
  registry : String → String → Option Bool

/-- The process state `random.cc` works on: the objects on the heap (by address) and
the next unused address, the function-local `static_support` map of `new_random`
(`none`: no entry for the key), the static `Random::_default_random`, the lines
written to `stderr`, the calls made to `RandomFactory::create`, and `faults`: the
addresses of destroyed objects on which a member function has been called
(use-after-free), in the order of the calls. As long as `faults` is empty the
execution is defined; from the first fault on the program has undefined behaviour. -/
structure World where
  heap : Nat → Random
  brk : Nat
  static_support : String → Option r_store
  _default_random : Option Nat
  stderr : List String
  created : List (String × String)
  faults : List Nat

/-- The state at process start: nothing allocated, an empty map, no default. -/
def World.init : World where
  heap := fun _ => ⟨0, false, false⟩
  brk := 0
  static_support := fun _ => none
  _default_random := none
  stderr := []
  created := []
  faults := []

/-- The call `p->ref()` on the object at address `p`. On a destroyed object the call
is a use-after-free and is recorded in `faults`; what the program does from there on
is undefined, and the state carried on (the stale count field updated in place) only
serves to locate the later accesses. -/
def World.ref (w : World) (p : Nat) : World :=
  { w with
    heap := Function.update w.heap p (w.heap p).ref
    faults := if (w.heap p).deleted then w.faults ++ [p] else w.faults }

/-- The call `p->unref()` on the object at address `p`; on a destroyed object it is a
use-after-free, recorded in `faults` like that of `ref`. -/
def World.unref (w : World) (p : Nat) : World :=
  { w with
    heap := Function.update w.heap p (w.heap p).unref
    faults := if (w.heap p).deleted then w.faults ++ [p] else w.faults }

/-- The constructor `r_store(Random* _r)`: stores the pointer and takes a reference. -/
def r_store.ctor (p : Nat) (w : World) : r_store × World :=
  (⟨some p⟩, w.ref p)

/-- The destructor `~r_store()`: releases the reference when the pointer is set. -/
def r_store.dtor (e : r_store) (w : World) : World :=
  match e.r with
  | some p => w.unref p
  | none => w

/-- The expression `static_support[name]`: `std::map::operator[]` yields the entry of
`name`, inserting a default-constructed `r_store()` (with `r = NULL`) when there is
none. -/
def World.index (w : World) (name : String) : r_store × World :=
  match w.static_support name with
  | some e => (e, w)
  | none => (⟨none⟩,
      { w with static_support := Function.update w.static_support name (some ⟨none⟩) })

/-- The statement `static_support[name]=r_store(ret);`: a temporary `r_store(ret)` is
constructed, the implicitly defined copy assignment copies its member `r` into the
map entry, and the temporary is destroyed at the end of the statement. -/
def World.assign (w : World) (name : String) (ret : Nat) : World :=
  let w1 := (w.index name).2
  let tmp := r_store.ctor ret w1
  let w2 := { tmp.2 with
    static_support := Function.update tmp.2.static_support name (some ⟨tmp.1.r⟩) }
  r_store.dtor tmp.1 w2

/-- Modelled from the spec: `RandomFactory::create(name, option)`, generated by
`FACTORY_IMPLEMENTATION(Random)` from a header that is not among the sources. It runs
the constructor registered for `name` on `option`; on success a new instance is
allocated at the next unused address, with reference count `0`. -/
def RandomFactory.create (E : Env) (name option : String) (w : World) : Option Nat × World :=
  let w1 := { w with created := w.created ++ [(name, option)] }
  match E.registry name option with
  | none => (none, w1)
  | some single =>
    (some w1.brk,
      { w1 with heap := Function.update w1.heap w1.brk ⟨0, single, false⟩, brk := w1.brk + 1 })

/-- The C string `x.c_str()` as `%s` prints it: the characters of `x` up to its first
NUL character. -/
def c_str (x : String) : String :=
  String.mk (x.data.takeWhile (fun c => c != Char.ofNat 0))

/-- The text written by
`fprintf(stderr,"DEPRECATED RANDOM SYNTAX. %s\nNew syntax is %s(%s)\n",
s.c_str(),name.c_str(),option.c_str())`. -/
def deprecation (s name option : String) : String :=
  "DEPRECATED RANDOM SYNTAX. " ++ c_str s ++ "\nNew syntax is " ++ c_str name ++ "("
    ++ c_str option ++ ")\n"

/-- The call `fprintf(stderr, ...)`. -/
def World.fprintf (w : World) (line : String) : World :=
  { w with stderr := w.stderr ++ [line] }

/-- The second half of `new_random`, from `split(s, name, option)` on. -/
def new_random_old (E : Env) (s : String) (w : World) : Option Nat × World :=
  let name := (E.split s).1
  let option := (E.split s).2
  let e := w.index name
  match e.1.r with
  | some ret => (some ret, (e.2.ref ret).fprintf (deprecation s name option))
  | none =>
    let c := RandomFactory.create E name option e.2
    match c.1 with
    | some ret =>
      let w1 := c.2.fprintf (deprecation s name option)
      let w2 := if (w1.heap ret).single then w1.assign name ret else w1
      (some ret, w2.ref ret)
    | none => (none, c.2)

/-- The function `new_random`: the returned pointer (`none` is `NULL`) and the state
it leaves. -/
def new_random (E : Env) (s : String) (w : World) : Option Nat × World :=
  let name := (E.param_cut s).1
  let option := (E.param_cut s).2
  let e := w.index name
  match e.1.r with
  | some ret => (some ret, e.2.ref ret)
  | none =>
    let c := RandomFactory.create E name option e.2
    match c.1 with
    | some ret =>
      let w1 := if (c.2.heap ret).single then c.2.assign name ret else c.2
      (some ret, w1.ref ret)
    | none => new_random_old E s c.2

/-- The function `Random::default_random`; `none` when `_default_random` is still
`NULL` at `_default_random->ref()`. -/
def Random.default_random (E : Env) (w : World) : Option (Nat × World) :=
  let w1 := match w._default_random with
    | some _ => w
    | none =>
      let r := new_random E "C" w
      { r.2 with _default_random := r.1 }
  match w1._default_random with
  | some p => some (p, w1.ref p)
  | none => none

/-- The instance the map holds for `name`: the pointer `static_support[name].r`. -/
def World.cached (w : World) (name : String) : Option Nat :=
  match w.static_support name with
  | some e => e.r
  | none => none

/-- The states the process can be in: the state at start, and every state reached
from one by a call of `new_random`, a call of `Random::default_random`, or a caller
taking or releasing a reference. -/
inductive Reachable (E : Env) : World → Prop
  | init : Reachable E World.init
  | new_random (s : String) {w : World} : Reachable E w → Reachable E (new_random E s w).2
  | default_random {w w1 : World} {p : Nat} :
      Reachable E w → Random.default_random E w = some (p, w1) → Reachable E w1
  | ref (p : Nat) {w : World} : Reachable E w → Reachable E (w.ref p)
  | unref (p : Nat) {w : World} : Reachable E w → Reachable E (w.unref p)

/-- The parsers and registry used in the examples: `param_cut` takes the text before
the first `(` as the name and the text up to the next `)` as the option, `split` cuts
at the first blank, and the registry knows `C` and `N`, which build shared (`single`)
instances, and `M`, which builds a fresh instance per call; each constructor accepts
the option `o` and the empty option only. -/
def demo : Env where
  param_cut := fun s =>
    (String.mk (s.data.takeWhile (fun c => c != Char.ofNat 40)),
     String.mk (((s.data.dropWhile (fun c => c != Char.ofNat 40)).drop 1).takeWhile
       (fun c => c != Char.ofNat 41)))
  split := fun s =>
    (String.mk (s.data.takeWhile (fun c => c != Char.ofNat 32)),
     String.mk ((s.data.dropWhile (fun c => c != Char.ofNat 32)).drop 1))
  registry := fun name option =>
    if option = "o" ∨ option = "" then
      if name = "C" ∨ name = "N" then some true
      else if name = "M" then some false else none
    else none

/-- Every instance the map holds is an allocated object that has been destroyed. -/
def World.stale (w : World) : Prop :=
  ∀ k p, w.cached k = some p → p < w.brk ∧ (w.heap p).deleted = true

/-- What a successful construction on a cache miss leaves behind, relative to the
state `w` before the lookup: one new instance at `w.brk` with count `1`, stored in
the map under `name` exactly when it is `single`. -/
def Built (w W : World) (name : String) (b : Bool) : Prop :=
  W.heap = Function.update w.heap w.brk ⟨1, b, b⟩ ∧ W.brk = w.brk + 1 ∧
    W._default_random = w._default_random ∧
    ∀ k, W.cached k = if k = name ∧ b = true then some w.brk else w.cached k

namespace Mwrapper

/-! ## Properties of `getIActions` -/

theorem Sparse.tail {is_output : Int → Bool} {x : Int} {Q : List Int}
    (h : Sparse is_output (x :: Q)) : Sparse is_output Q := by
  cases Q with
  | nil => trivial
  | cons y r => exact h.2

theorem Sparse.snoc {is_output : Int → Bool} {z : Int} (hz : is_output z = false) :
    ∀ Q : List Int, Sparse is_output Q → Sparse is_output (Q ++ [z])
  | [], _ => hz
  | [_], _ => ⟨Or.inr hz, hz⟩
  | _ :: y :: r, h => ⟨h.1, Sparse.snoc hz (y :: r) h.2⟩

theorem Sparse.drop_last {is_output : Int → Bool} :
    ∀ (Q : List Int) (h : Int), Sparse is_output (h :: Q) →
      ∃ z, (h :: Q).drop Q.length = [z] ∧ is_output z = false
  | [], h, hs => ⟨h, rfl, hs⟩
  | y :: r, _, hs => by
    obtain ⟨z, hz, hout⟩ := Sparse.drop_last r y hs.2
    exact ⟨z, by simpa using hz, hout⟩

theorem memmove_remove (P Q : List Int) (o : Int) :
    memmove (P ++ o :: Q) P.length (P.length + 1) (P.length + (1 + Q.length) - P.length - 1)
      = P ++ (Q ++ (o :: Q).drop Q.length) := by
  have e : P.length + (1 + Q.length) - P.length - 1 = Q.length := by omega
  rw [e]
  unfold memmove
  have h1 : (P ++ o :: Q).take P.length = P := by simp
  have h2 : (P ++ o :: Q).drop (P.length + 1) = Q := by
    rw [List.drop_append]; simp
  have h3 : (P ++ o :: Q).drop (P.length + Q.length) = (o :: Q).drop Q.length := by
    rw [List.drop_append]
  rw [h1, h2, h3]; simp

theorem getIActions_loop_sparse (is_output : Int → Bool) (a : Nat) :
    ∀ (k : Nat) (P Q : List Int) (ret : Int), Sparse is_output Q → k = Q.length →
      a = P.length + Q.length →
      ∃ junk, getIActions_loop is_output a k P.length ret (P ++ Q)
        = (ret - ((Q.length : Int) - ((inputsOf is_output Q).length : Int)),
           P ++ (inputsOf is_output Q ++ junk)) := by
  intro k
  induction k with
  | zero =>
    intro P Q ret _ hk _
    have hQ : Q = [] := List.length_eq_zero.mp hk.symm
    subst hQ
    exact ⟨[], by simp [getIActions_loop, inputsOf]⟩
  | succ k ih =>
    intro P Q ret hs hk ha
    cases Q with
    | nil => simp at hk
    | cons x Q =>
      have hget : (P ++ x :: Q).getD P.length 0 = x := by
        rw [List.getD_eq_getElem?_getD, List.getElem?_append_right (Nat.le_refl _)]
        simp
      simp only [List.length_cons] at hk ha
      by_cases hx : is_output x = true
      · -- an output action: it is removed and its successor is stepped over
        cases Q with
        | nil => simp [Sparse, hx] at hs
        | cons h Q =>
          have hh : is_output h = false := by
            rcases hs.1 with h1 | h1
            · simp [hx] at h1
            · exact h1
          obtain ⟨z, hz, hzout⟩ := Sparse.drop_last Q h hs.2
          have hmm : memmove (P ++ x :: h :: Q) P.length (P.length + 1) (a - P.length - 1)
              = (P ++ [h]) ++ (Q ++ [z]) := by
            have := memmove_remove P (h :: Q) x
            simp only [List.length_cons] at this
            have e : a = P.length + (1 + (Q.length + 1)) := by
              simp only [List.length_cons] at ha; omega
            rw [e, this]
            have hz2 : (x :: h :: Q).drop (Q.length + 1) = [z] := by simpa using hz
            rw [hz2]; simp
          have hs2 : Sparse is_output (Q ++ [z]) := Sparse.snoc hzout Q hs.2.tail
          obtain ⟨junk, hj⟩ := ih (P ++ [h]) (Q ++ [z]) (ret - 1) hs2
            (by simp at hk ⊢; omega) (by simp at ha ⊢; omega)
          refine ⟨z :: junk, ?_⟩
          rw [getIActions_loop, hget, if_pos hx, hmm]
          have hl : (P ++ [h]).length = P.length + 1 := by simp
          rw [← hl, hj]
          simp [inputsOf, List.filter_cons, hx, hh, hzout, List.filter_append]
          omega
      · -- an input action: it stays in place
        have hx2 : is_output x = false := by simpa using hx
        obtain ⟨junk, hj⟩ := ih (P ++ [x]) Q ret hs.tail (by omega) (by simp; omega)
        refine ⟨junk, ?_⟩
        rw [getIActions_loop, hget, if_neg hx]
        have hl : (P ++ [x]).length = P.length + 1 := by simp
        have happ : P ++ x :: Q = (P ++ [x]) ++ Q := by simp
        rw [← hl, happ, hj]
        simp [inputsOf, List.filter_cons, hx2]

theorem sparse_of_chain (is_output : Int → Bool) :
    ∀ L : List Int,
      List.Chain' (fun x y => ¬ (is_output x = true ∧ is_output y = true)) L →
      (∀ x ∈ L.getLast?, is_output x = false) → Sparse is_output L
  | [], _, _ => trivial
  | [x], _, hl => hl x (by simp)
  | x :: y :: r, hc, hl => by
    rw [List.chain'_cons] at hc
    refine ⟨?_, sparse_of_chain is_output (y :: r) hc.2 ?_⟩
    · by_cases hx : is_output x = true
      · right
        by_contra hy
        exact hc.1 ⟨hx, by simpa using hy⟩
      · left; simpa using hx
    · intro z hz
      exact hl z (by simpa [List.getLast?_cons_cons] using hz)

end Mwrapper

/-! ## Properties of `new_random` -/

theorem World.index_hit {w : World} {name : String} {x : Nat} (h : w.cached name = some x) :
    (w.index name).1.r = some x ∧ (w.index name).2 = w := by
  unfold World.cached at h
  unfold World.index
  cases hs : w.static_support name with
  | none => simp [hs] at h
  | some e => simpa [hs] using h

theorem World.index_miss {w : World} {name : String} (h : w.cached name = none) :
    (w.index name).1.r = none ∧ (w.index name).2.heap = w.heap ∧
      (w.index name).2.brk = w.brk ∧ (w.index name).2.stderr = w.stderr ∧
      (w.index name).2.created = w.created ∧
      (w.index name).2._default_random = w._default_random ∧
      (w.index name).2.static_support name ≠ none ∧
      ∀ k, (w.index name).2.cached k = w.cached k := by
  unfold World.cached at h
  unfold World.index
  cases hs : w.static_support name with
  | none =>
    refine ⟨rfl, rfl, rfl, rfl, rfl, rfl, by simp, ?_⟩
    intro k
    by_cases hk : k = name
    · subst hk; simp [World.cached, hs]
    · simp [World.cached, Function.update_noteq hk]
  | some e =>
    simp only [hs] at h
    exact ⟨h, rfl, rfl, rfl, rfl, rfl, by simp [hs], fun k => rfl⟩

theorem World.index_faults (w : World) (name : String) :
    (w.index name).2.faults = w.faults := by
  unfold World.index
  cases w.static_support name <;> rfl

theorem new_random_hit (E : Env) (s : String) (w : World) (x : Nat)
    (hc : w.cached (E.param_cut s).1 = some x) :
    new_random E s w = (some x, w.ref x) := by
  obtain ⟨h1, h2⟩ := World.index_hit hc
  simp only [new_random, h1, h2]

theorem World.assign_fresh (v : World) (name : String) (p : Nat)
    (hp : v.heap p = ⟨0, true, false⟩) (he : v.static_support name ≠ none) :
    ((v.assign name p).ref p).heap = Function.update v.heap p ⟨1, true, true⟩ ∧
      ((v.assign name p).ref p).brk = v.brk ∧
      ((v.assign name p).ref p).stderr = v.stderr ∧
      ((v.assign name p).ref p).created = v.created ∧
      ((v.assign name p).ref p)._default_random = v._default_random ∧
      ∀ k, ((v.assign name p).ref p).cached k = if k = name then some p else v.cached k := by
  have hi : v.index name = ((v.index name).1, v) := by
    unfold World.index
    cases hs : v.static_support name with
    | none => exact absurd hs he
    | some e => rfl
  have h2 : (v.index name).2 = v := by rw [hi]
  refine ⟨?_, ?_, ?_, ?_, ?_, ?_⟩
  · simp [World.assign, h2, r_store.ctor, r_store.dtor, World.ref, World.unref, hp,
      Random.ref, Random.unref]
  · simp [World.assign, h2, r_store.ctor, r_store.dtor, World.ref, World.unref]
  · simp [World.assign, h2, r_store.ctor, r_store.dtor, World.ref, World.unref]
  · simp [World.assign, h2, r_store.ctor, r_store.dtor, World.ref, World.unref]
  · simp [World.assign, h2, r_store.ctor, r_store.dtor, World.ref, World.unref]
  · intro k
    by_cases hk : k = name
    · subst hk
      simp [World.assign, h2, r_store.ctor, r_store.dtor, World.ref, World.unref, World.cached]
    · simp [World.assign, h2, r_store.ctor, r_store.dtor, World.ref, World.unref, World.cached,
        Function.update_noteq hk, hk]

theorem new_random_build (E : Env) (s : String) (w : World) (b : Bool)
    (hc : w.cached (E.param_cut s).1 = none)
    (hr : E.registry (E.param_cut s).1 (E.param_cut s).2 = some b) :
    (new_random E s w).1 = some w.brk ∧
      Built w (new_random E s w).2 (E.param_cut s).1 b ∧
      (new_random E s w).2.stderr = w.stderr ∧
      (new_random E s w).2.created = w.created ++ [E.param_cut s] := by
  obtain ⟨h1, hheap, hbrk, herr, hcr, hdef, hent, hcache⟩ := World.index_miss hc
  cases b with
  | true =>
    have hfresh := World.assign_fresh
      { (w.index (E.param_cut s).1).2 with
        created := (w.index (E.param_cut s).1).2.created ++ [E.param_cut s],
        heap := Function.update (w.index (E.param_cut s).1).2.heap
          (w.index (E.param_cut s).1).2.brk ⟨0, true, false⟩,
        brk := (w.index (E.param_cut s).1).2.brk + 1 }
      (E.param_cut s).1 (w.index (E.param_cut s).1).2.brk
      (by simp) hent
    obtain ⟨a1, a2, a3, a4, a5, a6⟩ := hfresh
    simp only [new_random, h1, RandomFactory.create, hr, Function.update_same, if_true]
    refine ⟨by rw [hbrk], ⟨?_, ?_, ?_, ?_⟩, ?_, ?_⟩
    · rw [a1]; simp [hheap, hbrk]
    · rw [a2]; simp [hbrk]
    · rw [a5]; exact hdef
    · intro k; rw [a6]
      by_cases hk : k = (E.param_cut s).1
      · simp [hk, hbrk]
      · simp only [hk, false_and, if_false]; exact hcache k
    · rw [a3]; exact herr
    · rw [a4]; simp [hcr]
  | false =>
    simp only [new_random, h1, RandomFactory.create, hr, Function.update_same]
    refine ⟨by rw [hbrk], ⟨?_, ?_, ?_, ?_⟩, ?_, ?_⟩
    · simp [World.ref, Random.ref, hheap, hbrk]
    · simp [World.ref, hbrk]
    · simp [World.ref, hdef]
    · intro k
      simpa [World.ref, World.cached] using hcache k
    · simp [World.ref, herr]
    · simp [World.ref, hcr]

theorem new_random_fallthrough (E : Env) (s : String) (w : World)
    (hc : w.cached (E.param_cut s).1 = none)
    (hr : E.registry (E.param_cut s).1 (E.param_cut s).2 = none) :
    ∃ v, new_random E s w = new_random_old E s v ∧ v.heap = w.heap ∧ v.brk = w.brk ∧
      v.stderr = w.stderr ∧ v.created = w.created ++ [E.param_cut s] ∧
      v._default_random = w._default_random ∧ (∀ k, v.cached k = w.cached k) ∧
      v.faults = w.faults := by
  obtain ⟨h1, hheap, hbrk, herr, hcr, hdef, _, hcache⟩ := World.index_miss hc
  refine ⟨{ (w.index (E.param_cut s).1).2 with
    created := (w.index (E.param_cut s).1).2.created ++ [E.param_cut s] }, ?_, hheap, hbrk,
    herr, by simp [hcr], hdef, fun k => by simpa [World.cached] using hcache k,
    World.index_faults w _⟩
  simp only [new_random, h1, RandomFactory.create, hr]

theorem new_random_old_hit (E : Env) (s : String) (v : World) (x : Nat)
    (hc : v.cached (E.split s).1 = some x) :
    new_random_old E s v =
      (some x, (v.ref x).fprintf (deprecation s (E.split s).1 (E.split s).2)) := by
  obtain ⟨h1, h2⟩ := World.index_hit hc
  simp only [new_random_old, h1, h2]

theorem new_random_old_build (E : Env) (s : String) (v : World) (b : Bool)
    (hc : v.cached (E.split s).1 = none)
    (hr : E.registry (E.split s).1 (E.split s).2 = some b) :
    (new_random_old E s v).1 = some v.brk ∧
      Built v (new_random_old E s v).2 (E.split s).1 b ∧
      (new_random_old E s v).2.stderr
        = v.stderr ++ [deprecation s (E.split s).1 (E.split s).2] ∧
      (new_random_old E s v).2.created = v.created ++ [E.split s] := by
  obtain ⟨h1, hheap, hbrk, herr, hcr, hdef, hent, hcache⟩ := World.index_miss hc
  cases b with
  | true =>
    have hfresh := World.assign_fresh
      { (v.index (E.split s).1).2 with
        created := (v.index (E.split s).1).2.created ++ [E.split s],
        heap := Function.update (v.index (E.split s).1).2.heap
          (v.index (E.split s).1).2.brk ⟨0, true, false⟩,
        brk := (v.index (E.split s).1).2.brk + 1,
        stderr := (v.index (E.split s).1).2.stderr
          ++ [deprecation s (E.split s).1 (E.split s).2] }
      (E.split s).1 (v.index (E.split s).1).2.brk
      (by simp) hent
    obtain ⟨a1, a2, a3, a4, a5, a6⟩ := hfresh
    simp only [new_random_old, h1, RandomFactory.create, hr, World.fprintf,
      Function.update_same, if_true]
    refine ⟨by rw [hbrk], ⟨?_, ?_, ?_, ?_⟩, ?_, ?_⟩
    · rw [a1]; simp [hheap, hbrk]
    · rw [a2]; simp [hbrk]
    · rw [a5]; exact hdef
    · intro k; rw [a6]
      by_cases hk : k = (E.split s).1
      · simp [hk, hbrk]
      · simp only [hk, false_and, if_false]; exact hcache k
    · rw [a3]; simp [herr]
    · rw [a4]; simp [hcr]
  | false =>
    simp only [new_random_old, h1, RandomFactory.create, hr, World.fprintf,
      Function.update_same]
    refine ⟨by rw [hbrk], ⟨?_, ?_, ?_, ?_⟩, ?_, ?_⟩
    · simp [World.ref, Random.ref, hheap, hbrk]
    · simp [World.ref, hbrk]
    · simp [World.ref, hdef]
    · intro k
      simpa [World.ref, World.cached] using hcache k
    · simp [World.ref, herr]
    · simp [World.ref, hcr]

theorem new_random_old_fail (E : Env) (s : String) (v : World)
    (hc : v.cached (E.split s).1 = none)
    (hr : E.registry (E.split s).1 (E.split s).2 = none) :
    (new_random_old E s v).1 = none ∧ (new_random_old E s v).2.heap = v.heap ∧
      (new_random_old E s v).2.brk = v.brk ∧
      (new_random_old E s v).2.stderr = v.stderr ∧
      (new_random_old E s v).2.created = v.created ++ [E.split s] ∧
      (new_random_old E s v).2._default_random = v._default_random ∧
      ∀ k, (new_random_old E s v).2.cached k = v.cached k := by
  obtain ⟨h1, hheap, hbrk, herr, hcr, hdef, _, hcache⟩ := World.index_miss hc
  simp only [new_random_old, h1, RandomFactory.create, hr]
  exact ⟨trivial, hheap, hbrk, herr, by simp [hcr], hdef,
    fun k => by simpa [World.cached] using hcache k⟩

theorem World.cached_ref (w : World) (p : Nat) (k : String) :
    (w.ref p).cached k = w.cached k := rfl

theorem World.cached_unref (w : World) (p : Nat) (k : String) :
    (w.unref p).cached k = w.cached k := rfl

theorem World.cached_fprintf (w : World) (l : String) (k : String) :
    (w.fprintf l).cached k = w.cached k := rfl

theorem new_random_cached_sub (E : Env) (s : String) (w : World) (k : String) (p : Nat)
    (h : (new_random E s w).2.cached k = some p) :
    w.cached k = some p ∨ ∃ o, E.registry k o = some true := by
  cases hc : w.cached (E.param_cut s).1 with
  | some x =>
    rw [new_random_hit E s w x hc] at h
    exact Or.inl h
  | none =>
    cases hr : E.registry (E.param_cut s).1 (E.param_cut s).2 with
    | some b =>
      obtain ⟨_, ⟨_, _, _, hk⟩, _, _⟩ := new_random_build E s w b hc hr
      rw [hk k] at h
      by_cases hkb : k = (E.param_cut s).1 ∧ b = true
      · right
        obtain ⟨h1, h2⟩ := hkb
        subst h1 h2
        exact ⟨_, hr⟩
      · rw [if_neg hkb] at h; exact Or.inl h
    | none =>
      obtain ⟨v, hv, _, _, _, _, _, hvc, _⟩ := new_random_fallthrough E s w hc hr
      rw [hv] at h
      cases hc2 : v.cached (E.split s).1 with
      | some x =>
        rw [new_random_old_hit E s v x hc2] at h
        left; rw [← hvc k]; exact h
      | none =>
        cases hr2 : E.registry (E.split s).1 (E.split s).2 with
        | some b =>
          obtain ⟨_, ⟨_, _, _, hk⟩, _, _⟩ := new_random_old_build E s v b hc2 hr2
          rw [hk k] at h
          by_cases hkb : k = (E.split s).1 ∧ b = true
          · right
            obtain ⟨h1, h2⟩ := hkb
            subst h1 h2
            exact ⟨_, hr2⟩
          · rw [if_neg hkb, hvc k] at h; exact Or.inl h
        | none =>
          obtain ⟨_, _, _, _, _, _, hk⟩ := new_random_old_fail E s v hc2 hr2
          rw [hk k, hvc k] at h
          exact Or.inl h

theorem Reachable.cached_single {E : Env} {w : World} (hw : Reachable E w) :
    ∀ (k : String) (p : Nat), w.cached k = some p → ∃ o, E.registry k o = some true := by
  induction hw with
  | init => intro k p h; simp [World.cached, World.init] at h
  | new_random s _ ih =>
    intro k p h
    rcases new_random_cached_sub E s _ k p h with h1 | h1
    · exact ih k p h1
    · exact h1
  | @default_random w w1 q _ hd ih =>
    intro k p h
    unfold Random.default_random at hd
    cases h0 : w._default_random with
    | some x =>
      simp only [h0, Option.some.injEq, Prod.mk.injEq] at hd
      rw [← hd.2] at h
      exact ih k p h
    | none =>
      simp only [h0] at hd
      cases hn : (fMBT.new_random E "C" w).1 with
      | none => simp [hn] at hd
      | some x =>
        simp only [hn, Option.some.injEq, Prod.mk.injEq] at hd
        rw [← hd.2] at h
        have h2 : (fMBT.new_random E "C" w).2.cached k = some p := h
        rcases new_random_cached_sub E "C" w k p h2 with h1 | h1
        · exact ih k p h1
        · exact h1
  | ref p _ ih => intro k q h; exact ih k q h
  | unref p _ ih => intro k q h; exact ih k q h

theorem World.assign_fresh_faults (v : World) (name : String) (p : Nat)
    (hp : v.heap p = ⟨0, true, false⟩) (he : v.static_support name ≠ none) :
    (v.assign name p).heap p = ⟨0, true, true⟩ ∧ (v.assign name p).faults = v.faults ∧
      ((v.assign name p).ref p).faults = v.faults ++ [p] := by
  have hi : v.index name = ((v.index name).1, v) := by
    unfold World.index
    cases hs : v.static_support name with
    | none => exact absurd hs he
    | some e => rfl
  have h2 : (v.index name).2 = v := by rw [hi]
  refine ⟨?_, ?_, ?_⟩
  · simp [World.assign, h2, r_store.ctor, r_store.dtor, World.ref, World.unref, hp,
      Random.ref, Random.unref]
  · simp [World.assign, h2, r_store.ctor, r_store.dtor, World.ref, World.unref, hp,
      Random.ref]
  · simp [World.assign, h2, r_store.ctor, r_store.dtor, World.ref, World.unref, hp,
      Random.ref, Random.unref]

theorem new_random_build_faults (E : Env) (s : String) (w : World) (b : Bool)
    (hc : w.cached (E.param_cut s).1 = none)
    (hr : E.registry (E.param_cut s).1 (E.param_cut s).2 = some b) :
    (new_random E s w).2.faults = if b = true then w.faults ++ [w.brk] else w.faults := by
  obtain ⟨h1, _, hbrk, _, _, _, hent, _⟩ := World.index_miss hc
  have hf := World.index_faults w (E.param_cut s).1
  cases b with
  | true =>
    obtain ⟨_, _, a3⟩ := World.assign_fresh_faults
      { (w.index (E.param_cut s).1).2 with
        created := (w.index (E.param_cut s).1).2.created ++ [E.param_cut s],
        heap := Function.update (w.index (E.param_cut s).1).2.heap
          (w.index (E.param_cut s).1).2.brk ⟨0, true, false⟩,
        brk := (w.index (E.param_cut s).1).2.brk + 1 }
      (E.param_cut s).1 (w.index (E.param_cut s).1).2.brk
      (by simp) hent
    simp only [new_random, h1, RandomFactory.create, hr, Function.update_same, if_true]
    rw [a3]; simp [hf, hbrk]
  | false =>
    simp only [new_random, h1, RandomFactory.create, hr, Function.update_same]
    simp [World.ref, hf]

theorem new_random_old_fail_faults (E : Env) (s : String) (v : World)
    (hc : v.cached (E.split s).1 = none)
    (hr : E.registry (E.split s).1 (E.split s).2 = none) :
    (new_random_old E s v).2.faults = v.faults := by
  obtain ⟨h1, _⟩ := World.index_miss hc
  simp only [new_random_old, h1, RandomFactory.create, hr]
  exact World.index_faults v _

theorem new_random_old_fresh (E : Env) (s : String) (v : World)
    (hc : v.cached (E.split s).1 = none)
    (hr : E.registry (E.split s).1 (E.split s).2 = some false) :
    (new_random_old E s v).1 = some v.brk ∧
      (new_random_old E s v).2.heap = Function.update v.heap v.brk ⟨1, false, false⟩ ∧
      (∀ k, (new_random_old E s v).2.cached k = v.cached k) ∧
      (new_random_old E s v).2.stderr
        = v.stderr ++ ["DEPRECATED RANDOM SYNTAX. " ++ c_str s ++ "\nNew syntax is "
            ++ c_str (E.split s).1 ++ "(" ++ c_str (E.split s).2 ++ ")\n"] ∧
      (new_random_old E s v).2.faults = v.faults := by
  obtain ⟨a1, ⟨a2, _, _, a5⟩, a6, _⟩ := new_random_old_build E s v false hc hr
  refine ⟨a1, a2, fun k => by rw [a5 k]; simp, a6, ?_⟩
  obtain ⟨h1, _⟩ := World.index_miss hc
  simp only [new_random_old, h1, RandomFactory.create, hr, World.fprintf,
    Function.update_same]
  simp [World.ref, World.index_faults]

theorem World.stale_congr {w W : World} (hw : w.stale) (hh : W.heap = w.heap)
    (hb : W.brk = w.brk) (hc : ∀ k, W.cached k = w.cached k) : W.stale := by
  intro k p h
  rw [hc k] at h
  rw [hh, hb]
  exact hw k p h

theorem World.stale_ref {w : World} (hw : w.stale) (q : Nat) : (w.ref q).stale := by
  intro k p h
  obtain ⟨h1, h2⟩ := hw k p h
  refine ⟨h1, ?_⟩
  by_cases hpq : p = q
  · subst hpq; simpa [World.ref, Random.ref] using h2
  · simpa [World.ref, Function.update_noteq hpq] using h2

theorem World.stale_unref {w : World} (hw : w.stale) (q : Nat) : (w.unref q).stale := by
  intro k p h
  obtain ⟨h1, h2⟩ := hw k p h
  refine ⟨h1, ?_⟩
  by_cases hpq : p = q
  · subst hpq
    simp only [World.unref, Function.update_same, Random.unref]
    split <;> simp [h2]
  · simpa [World.unref, Function.update_noteq hpq] using h2

theorem World.stale_built {w W : World} {name : String} {b : Bool} (hw : w.stale)
    (hB : Built w W name b) : W.stale := by
  obtain ⟨b1, b2, _, b4⟩ := hB
  intro k p h
  rw [b4 k] at h
  rw [b1, b2]
  by_cases hkb : k = name ∧ b = true
  · rw [if_pos hkb] at h
    have hp : p = w.brk := by simpa using h.symm
    subst hp
    exact ⟨by omega, by simp [hkb.2]⟩
  · rw [if_neg hkb] at h
    obtain ⟨h1, h2⟩ := hw k p h
    have hne : p ≠ w.brk := by omega
    exact ⟨by omega, by rw [Function.update_noteq hne]; exact h2⟩

theorem new_random_stale (E : Env) (s : String) (w : World) (hw : w.stale) :
    (new_random E s w).2.stale := by
  cases hc : w.cached (E.param_cut s).1 with
  | some x =>
    rw [new_random_hit E s w x hc]
    exact World.stale_ref hw x
  | none =>
    cases hr : E.registry (E.param_cut s).1 (E.param_cut s).2 with
    | some b =>
      obtain ⟨_, hB, _, _⟩ := new_random_build E s w b hc hr
      exact World.stale_built hw hB
    | none =>
      obtain ⟨v, hv, v1, v2, _, _, _, v6, _⟩ := new_random_fallthrough E s w hc hr
      have hvs : v.stale := World.stale_congr hw v1 v2 v6
      rw [hv]
      cases hc2 : v.cached (E.split s).1 with
      | some x =>
        rw [new_random_old_hit E s v x hc2]
        exact World.stale_congr (World.stale_ref hvs x) rfl rfl (fun _ => rfl)
      | none =>
        cases hr2 : E.registry (E.split s).1 (E.split s).2 with
        | some b =>
          obtain ⟨_, hB, _, _⟩ := new_random_old_build E s v b hc2 hr2
          exact World.stale_built hvs hB
        | none =>
          obtain ⟨_, f2, f3, _, _, _, f7⟩ := new_random_old_fail E s v hc2 hr2
          exact World.stale_congr hvs f2 f3 f7

theorem Reachable.stale {E : Env} {w : World} (hw : Reachable E w) : w.stale := by
  induction hw with
  | init => intro k p h; simp [World.cached, World.init] at h
  | new_random s _ ih => exact new_random_stale E s _ ih
  | @default_random w w1 q _ hd ih =>
    unfold Random.default_random at hd
    cases h0 : w._default_random with
    | some x =>
      simp only [h0, Option.some.injEq, Prod.mk.injEq] at hd
      rw [← hd.2]
      exact World.stale_ref ih x
    | none =>
      simp only [h0] at hd
      cases hn : (fMBT.new_random E "C" w).1 with
      | none => simp [hn] at hd
      | some x =>
        simp only [hn, Option.some.injEq, Prod.mk.injEq] at hd
        rw [← hd.2]
        exact World.stale_ref
          (World.stale_congr (new_random_stale E "C" w ih) rfl rfl (fun _ => rfl)) x
  | ref p _ ih => exact World.stale_ref ih p
  | unref p _ ih => exact World.stale_unref ih p

theorem new_random_hit_faults {E : Env} {w : World} (hw : Reachable E w) (s : String)
    (x : Nat) (hc : w.cached (E.param_cut s).1 = some x) :
    (new_random E s w).1 = some x ∧ (w.heap x).deleted = true ∧
      (new_random E s w).2.faults = w.faults ++ [x] := by
  have hd := (hw.stale _ x hc).2
  rw [new_random_hit E s w x hc]
  exact ⟨rfl, hd, by simp [World.ref, hd]⟩

/-! ## The claims -/

/-- C1: `getIActions` is meant to leave the non-output actions of the list, in order,
in the first `n` entries and return their number `n`. On the action list `[1, 2, 3]`
whose actions `1` and `2` are outputs it returns `2` and leaves `[2, 3, 3]`, although
the only non-output action is `3`; on the example `[1, 2, 3]` with `2` the only
output it returns `2` and leaves `1, 3` in front. -/
theorem Mwrapper.getIActions_adjacent_outputs :
    Mwrapper.getIActions (fun x => x == 1 || x == 2) [1, 2, 3] = (2, [2, 3, 3]) ∧
      [1, 2, 3].filter (fun x => !(fun x : Int => x == 1 || x == 2) x) = [3] ∧
      Mwrapper.getIActions (fun x => x == 2) [1, 2, 3] = (2, [1, 3, 3]) := by
  decide

/-- C9: when no two adjacent actions of the list are outputs and its last action (if
any) is not an output, `getIActions` returns the number of non-output actions and
leaves exactly those actions, in their original order, in the first entries. -/
theorem Mwrapper.getIActions_sparse (is_output : Int → Bool) (L : List Int)
    (hadj : List.Chain' (fun x y => ¬ (is_output x = true ∧ is_output y = true)) L)
    (hlast : ∀ x ∈ L.getLast?, is_output x = false) :
    (Mwrapper.getIActions is_output L).1 = ((L.filter (fun x => !is_output x)).length : Int) ∧
      (Mwrapper.getIActions is_output L).2.take (L.filter (fun x => !is_output x)).length
        = L.filter (fun x => !is_output x) := by
  obtain ⟨junk, hj⟩ := Mwrapper.getIActions_loop_sparse is_output L.length L.length [] L
    (L.length : Int) (Mwrapper.sparse_of_chain is_output L hadj hlast) rfl (by simp)
  have hj2 : Mwrapper.getIActions is_output L
      = ((L.length : Int) - ((L.length : Int) - ((Mwrapper.inputsOf is_output L).length : Int)),
        Mwrapper.inputsOf is_output L ++ junk) := by
    simpa [Mwrapper.getIActions] using hj
  rw [hj2]
  constructor
  · simp [Mwrapper.inputsOf]
  · simp [Mwrapper.inputsOf]

theorem Mwrapper.getIActions_sparse_witness :
    (Mwrapper.getIActions (fun x => x == 2) [1, 2, 3]).1
        = (([1, 2, 3].filter (fun x => !(fun x : Int => x == 2) x)).length : Int) ∧
      (Mwrapper.getIActions (fun x => x == 2) [1, 2, 3]).2.take
          ([1, 2, 3].filter (fun x => !(fun x : Int => x == 2) x)).length
        = [1, 2, 3].filter (fun x => !(fun x : Int => x == 2) x) :=
  Mwrapper.getIActions_sparse (fun x => x == 2) [1, 2, 3] (by simp) (by simp)

/-- C8: `execute(a)` returns `a` when the base model's `model_execute(a)` succeeds
(returns non-zero) and `0` when it fails; the wrapper's `status` and `errormsg` are
left as they were, and the base model is left in the state `model_execute` produced. -/
theorem Mwrapper.execute_result {M : Type} (B : Mwrapper.aal M) (w : Mwrapper.State M)
    (a : Int) :
    (Mwrapper.execute B w a).1 = (if (B.model_execute w.model a).1 ≠ 0 then a else 0) ∧
      (Mwrapper.execute B w a).2.status = w.status ∧
      (Mwrapper.execute B w a).2.errormsg = w.errormsg ∧
      (Mwrapper.execute B w a).2.model = (B.model_execute w.model a).2 := by
  unfold Mwrapper.execute
  by_cases h : (B.model_execute w.model a).1 = 0 <;> simp [h]

/-- C5: when neither the name of the primary grammar nor the name of the legacy split
has an instance in the map and the factory yields no instance for either (name,
option) pair, `new_random` returns `NULL`, writes no diagnostic, leaves every instance
(and so every reference count) as it was, allocates nothing, and the map holds an
instance for a name after the call exactly when it did before: none for either name.
The call commits no use-after-free. -/
theorem new_random_unknown (E : Env) (s : String) (w : World)
    (hc1 : w.cached (E.param_cut s).1 = none)
    (hr1 : E.registry (E.param_cut s).1 (E.param_cut s).2 = none)
    (hc2 : w.cached (E.split s).1 = none)
    (hr2 : E.registry (E.split s).1 (E.split s).2 = none) :
    (new_random E s w).1 = none ∧
      (new_random E s w).2.stderr = w.stderr ∧
      (new_random E s w).2.heap = w.heap ∧
      (new_random E s w).2.brk = w.brk ∧
      (new_random E s w).2.cached (E.param_cut s).1 = none ∧
      (new_random E s w).2.cached (E.split s).1 = none ∧
      (new_random E s w).2.faults = w.faults ∧
      ∀ k, (new_random E s w).2.cached k = w.cached k := by
  obtain ⟨v, hv, v1, v2, v3, _, _, v6, v7⟩ := new_random_fallthrough E s w hc1 hr1
  obtain ⟨f1, f2, f3, f4, _, _, f7⟩ :=
    new_random_old_fail E s v (by rw [v6]; exact hc2) hr2
  have f8 := new_random_old_fail_faults E s v (by rw [v6]; exact hc2) hr2
  rw [hv]
  refine ⟨f1, by rw [f4, v3], by rw [f2, v1], by rw [f3, v2], ?_, ?_, by rw [f8, v7], ?_⟩
  · rw [f7, v6]; exact hc1
  · rw [f7, v6]; exact hc2
  · intro k; rw [f7, v6]

theorem new_random_unknown_witness :
    (new_random demo "Q(7)" World.init).1 = none ∧
      (new_random demo "Q(7)" World.init).2.stderr = World.init.stderr ∧
      (new_random demo "Q(7)" World.init).2.heap = World.init.heap ∧
      (new_random demo "Q(7)" World.init).2.brk = World.init.brk ∧
      (new_random demo "Q(7)" World.init).2.cached (demo.param_cut "Q(7)").1 = none ∧
      (new_random demo "Q(7)" World.init).2.cached (demo.split "Q(7)").1 = none ∧
      (new_random demo "Q(7)" World.init).2.faults = World.init.faults ∧
      ∀ k, (new_random demo "Q(7)" World.init).2.cached k = World.init.cached k :=
  new_random_unknown demo "Q(7)" World.init (by decide) (by decide) (by decide) (by decide)

/-- C7: in every reachable state, for a spec that parses to `(N, o)` where the
constructor of `N` never yields a `single` instance and yields one with
`single == false` on `o`: `new_random` stores nothing in the map, so a second call
with the same spec calls the factory again and returns a second instance, distinct
from the first; after its acquisition each of the two has reference count `1` (and
the first still has it after the second call). Neither call commits a
use-after-free. -/
theorem new_random_not_single (E : Env) (s N o : String) (w : World)
    (hw : Reachable E w) (hp : E.param_cut s = (N, o))
    (hns : ∀ o1, E.registry N o1 ≠ some true) (hr : E.registry N o = some false) :
    ∃ p q, (new_random E s w).1 = some p ∧
      (new_random E s (new_random E s w).2).1 = some q ∧ p ≠ q ∧
      (new_random E s w).2.cached N = none ∧
      (new_random E s (new_random E s w).2).2.cached N = none ∧
      (new_random E s w).2.created = w.created ++ [(N, o)] ∧
      (new_random E s (new_random E s w).2).2.created = w.created ++ [(N, o)] ++ [(N, o)] ∧
      (new_random E s (new_random E s w).2).2.brk = w.brk + 2 ∧
      ((new_random E s w).2.heap p).refcount = 1 ∧
      ((new_random E s (new_random E s w).2).2.heap q).refcount = 1 ∧
      ((new_random E s (new_random E s w).2).2.heap p).refcount = 1 ∧
      (new_random E s w).2.faults = w.faults ∧
      (new_random E s (new_random E s w).2).2.faults = w.faults := by
  have hN : (E.param_cut s).1 = N := by rw [hp]
  have ho : (E.param_cut s).2 = o := by rw [hp]
  have hc : w.cached N = none := by
    cases h : w.cached N with
    | none => rfl
    | some x =>
      obtain ⟨o1, h1⟩ := hw.cached_single N x h
      exact absurd h1 (hns o1)
  obtain ⟨a1, ⟨a2, a3, _, a5⟩, _, a7⟩ :=
    new_random_build E s w false (by rw [hN]; exact hc) (by rw [hN, ho]; exact hr)
  have hc1 : (new_random E s w).2.cached N = none := by
    rw [a5]; simp [hc]
  obtain ⟨b1, ⟨b2, b3, _, b5⟩, _, b7⟩ :=
    new_random_build E s (new_random E s w).2 false (by rw [hN]; exact hc1)
      (by rw [hN, ho]; exact hr)
  have a8 := new_random_build_faults E s w false (by rw [hN]; exact hc)
    (by rw [hN, ho]; exact hr)
  have b8 := new_random_build_faults E s (new_random E s w).2 false (by rw [hN]; exact hc1)
    (by rw [hN, ho]; exact hr)
  refine ⟨w.brk, w.brk + 1, a1, by rw [b1, a3], by omega, hc1, ?_, by rw [a7, hp],
    by rw [b7, a7, hp], by rw [b3, a3], by rw [a2]; simp, by rw [b2, a3]; simp, ?_,
    by simpa using a8, by rw [b8]; simpa using a8⟩
  · rw [b5]; simp [hc1]
  · rw [b2, a3, a2]; simp

theorem new_random_not_single_witness :
    ∃ p q, (new_random demo "M(o)" World.init).1 = some p ∧
      (new_random demo "M(o)" (new_random demo "M(o)" World.init).2).1 = some q ∧ p ≠ q ∧
      (new_random demo "M(o)" World.init).2.cached "M" = none ∧
      (new_random demo "M(o)" (new_random demo "M(o)" World.init).2).2.cached "M" = none ∧
      (new_random demo "M(o)" World.init).2.created = World.init.created ++ [("M", "o")] ∧
      (new_random demo "M(o)" (new_random demo "M(o)" World.init).2).2.created
        = World.init.created ++ [("M", "o")] ++ [("M", "o")] ∧
      (new_random demo "M(o)" (new_random demo "M(o)" World.init).2).2.brk
        = World.init.brk + 2 ∧
      ((new_random demo "M(o)" World.init).2.heap p).refcount = 1 ∧
      ((new_random demo "M(o)" (new_random demo "M(o)" World.init).2).2.heap q).refcount = 1 ∧
      ((new_random demo "M(o)" (new_random demo "M(o)" World.init).2).2.heap p).refcount = 1 ∧
      (new_random demo "M(o)" World.init).2.faults = World.init.faults ∧
      (new_random demo "M(o)" (new_random demo "M(o)" World.init).2).2.faults
        = World.init.faults :=
  new_random_not_single demo "M(o)" "M" "o" World.init Reachable.init (by decide)
    (by intro o1; simp [demo]) (by decide)

/-- C2: the map entry is meant to hold a reference of its own, so that a cached
instance outlives every caller. In `static_support[name]=r_store(ret)` the reference
taken by the temporary is released again when the temporary is destroyed: after
`new_random("N(o)")` on a `single` plugin from the initial state the map holds the
new instance `0`, whose count is `1` (the caller's reference only) and which the
temporary's `unref` has already destroyed; after the caller's one matching `unref`
the count is `0`, below the `1` the map entry should account for, while the map
still holds the instance. The caller's `ref` inside `new_random` and the caller's
`unref` are both calls on the destroyed instance. -/
theorem new_random_store_keeps_no_reference :
    (new_random demo "N(o)" World.init).1 = some 0 ∧
      (new_random demo "N(o)" World.init).2.cached "N" = some 0 ∧
      (new_random demo "N(o)" World.init).2.heap 0 = ⟨1, true, true⟩ ∧
      ((new_random demo "N(o)" World.init).2.unref 0).cached "N" = some 0 ∧
      ((new_random demo "N(o)" World.init).2.unref 0).heap 0 = ⟨0, true, true⟩ ∧
      ¬ (1 ≤ (((new_random demo "N(o)" World.init).2.unref 0).heap 0).refcount) ∧
      (new_random demo "N(o)" World.init).2.faults = [0] ∧
      ((new_random demo "N(o)" World.init).2.unref 0).faults = [0, 0] := by
  decide

/-- C3: two successive `new_random("N(o)")` calls on a `single` plugin are meant to
return one shared instance whose count goes up by one per call. From the initial
state the first call constructs instance `0`; the statement
`static_support[name]=r_store(ret)` leaves it destroyed (count `0`) with the map
holding it, without any fault so far; the `ret->ref()` that follows is a call on the
destroyed instance, and so is the `ret->ref()` of the second call, which finds the
dangling pointer in the map. -/
theorem new_random_single_use_after_free :
    ((RandomFactory.create demo "N" "o" (World.init.index "N").2).2.assign "N" 0).heap 0
        = ⟨0, true, true⟩ ∧
      ((RandomFactory.create demo "N" "o" (World.init.index "N").2).2.assign "N" 0).cached "N"
        = some 0 ∧
      ((RandomFactory.create demo "N" "o" (World.init.index "N").2).2.assign "N" 0).faults
        = [] ∧
      (new_random demo "N(o)" World.init).1 = some 0 ∧
      (new_random demo "N(o)" World.init).2.faults = [0] ∧
      (new_random demo "N(o)" (new_random demo "N(o)" World.init).2).1 = some 0 ∧
      (new_random demo "N(o)" (new_random demo "N(o)" World.init).2).2.faults = [0, 0] := by
  decide

/-- C10: a lookup that finds an instance under the parsed name is meant to return that
instance with its count raised by one. The lookup is keyed by the name alone (the
option `bad` is one the constructor of `N` rejects, and no constructor is called),
but the instance the map holds for `N` after `new_random("N(o)")` is destroyed, so
the `ret->ref()` of `new_random("N(bad)")` is a call on a destroyed instance. -/
theorem new_random_hit_use_after_free :
    demo.param_cut "N(bad)" = ("N", "bad") ∧ demo.registry "N" "bad" = none ∧
      (new_random demo "N(o)" World.init).2.cached "N" = some 0 ∧
      ((new_random demo "N(o)" World.init).2.heap 0).deleted = true ∧
      (new_random demo "N(bad)" (new_random demo "N(o)" World.init).2).1 = some 0 ∧
      (new_random demo "N(bad)" (new_random demo "N(o)" World.init).2).2.created
        = (new_random demo "N(o)" World.init).2.created ∧
      (new_random demo "N(bad)" (new_random demo "N(o)" World.init).2).2.faults
        = (new_random demo "N(o)" World.init).2.faults ++ [0] := by
  decide

/-- C4: the legacy spec `N o` is meant to resolve to the instance `N(o)` would give,
stored in the map when it is `single`, with one deprecation line. From the initial
state `new_random("N o")` finds nothing under the primary name `N o`, builds
instance `0` from the split `(N, o)` and writes the one line; its
`static_support[name]=r_store(ret)` leaves the instance destroyed with the map holding
it, and the `ret->ref()` before the return is a call on the destroyed instance. The
spec `N(o)` takes the same course without the line. -/
theorem new_random_legacy_use_after_free :
    demo.param_cut "N o" = ("N o", "") ∧ demo.registry "N o" "" = none ∧
      demo.split "N o" = ("N", "o") ∧ demo.registry "N" "o" = some true ∧
      (new_random demo "N o" World.init).1 = some 0 ∧
      (new_random demo "N o" World.init).2.stderr
        = ["DEPRECATED RANDOM SYNTAX. N o\nNew syntax is N(o)\n"] ∧
      (new_random demo "N o" World.init).2.cached "N" = some 0 ∧
      ((new_random demo "N o" World.init).2.heap 0).deleted = true ∧
      (new_random demo "N o" World.init).2.faults = [0] ∧
      (new_random demo "N(o)" World.init).2.stderr = [] ∧
      (new_random demo "N(o)" World.init).2.faults = [0] := by
  decide

/-- C6: two successive `Random::default_random()` calls are meant to return one live
default instance, acquired once. With a `single` plugin registered as `C`, the first
call from the initial state returns instance `0`, which `new_random("C")` has left
destroyed: its own `ret->ref()` and the `_default_random->ref()` of the first call
are calls on the destroyed instance, and the second call returns the same dangling
pointer after one more such call, without acquiring anything. -/
theorem default_random_use_after_free :
    demo.registry "C" "" = some true ∧
      (Random.default_random demo World.init).map
          (fun r => (r.1, (r.2.heap 0).deleted, r.2.faults, r.2.brk))
        = some (0, true, [0, 0], 1) ∧
      ((Random.default_random demo World.init).bind
          (fun r => Random.default_random demo r.2)).map
          (fun r => (r.1, (r.2.heap 0).deleted, r.2.faults, r.2.brk))
        = some (0, true, [0, 0, 0], 1) := by
  decide

end fMBT
